import Mathlib

/-!
Shallow embedding of `lib-ws2812b.h` (WS2812b LED strip driver) and proofs
about its pixel buffer, HSV→RGB conversion and bit-banged transmission.

Machine integers are modelled as `Nat` with explicit `% 256` where the C code
truncates to a byte (8-bit register writes, implicit byte conversions).
The pixel buffer `rgb_t data[LEN]` is a `List rgb_t`; the template
parameters `PIN`, `LEN`, `ORDER` become ordinary arguments.
-/

namespace WS2812b

/-- `rgb_t`: the Red/Green/Blue triplet stored per LED (each field a byte). -/
structure rgb_t where
  r : Nat
  g : Nat
  b : Nat
  deriving DecidableEq

/-- `order_t`: channel order of the controller (RGB = 0, GRB = 1). -/
inductive order_t where
  | RGB
  | GRB
  deriving DecidableEq

/-- `setRGB(pos, rgb)` (line 66): bounds-checked in-place write of slot `pos`;
    out-of-range positions are silently ignored. -/
def setRGB (LEN pos : Nat) (rgb : rgb_t) (buf : List rgb_t) : List rgb_t :=
  if pos < LEN then buf.set pos rgb else buf

/-- `setRGB(pos, r, g, b)` (line 78): convenience overload building the triplet. -/
def setRGBbytes (LEN pos r g b : Nat) (buf : List rgb_t) : List rgb_t :=
  setRGB LEN pos ⟨r, g, b⟩ buf

/-- The sextant computation of `setHSV` (line 104):
    `(((h % (6*256)) >> 8) > 5) ? 5 : (h % (6*256)) >> 8`. -/
def sextantOf (h : Nat) : Nat :=
  if ((h % (6 * 256)) >>> 8) > 5 then 5 else (h % (6 * 256)) >>> 8

/-- The floor channel `c` of `setHSV` (lines 111-114):
    `ww = v*(255-s); ww += 1; ww += ww>>8; c = byte(ww>>8)`. -/
def floorChannel (s v : Nat) : Nat :=
  ((v * (255 - s) + 1 + ((v * (255 - s) + 1) >>> 8)) >>> 8) % 256

/-- The rising-slope value `d` for even sextants (lines 120-122):
    `d = v * ((255<<8) - (uint16)(s*(256-h_fraction))); d += d>>8; d += v`. -/
def slopeUp (s v hf : Nat) : Nat :=
  let d := v * ((255 <<< 8) - s * (256 - hf))
  d + (d >>> 8) + v

/-- The falling-slope value `d` for odd sextants (lines 136-138):
    `d = v * ((255<<8) - (uint16)(s*h_fraction)); d += d>>8; d += v`. -/
def slopeDown (s v hf : Nat) : Nat :=
  let d := v * ((255 <<< 8) - s * hf)
  d + (d >>> 8) + v

/-- The buffer update performed by the sextant switch of `setHSV`
    (lines 118-150), taking the already-computed sextant and `h_fraction`.
    Arguments passed to byte parameters of `setRGB` are truncated `% 256`
    as the C implicit conversion does.  A sextant outside 0..5 falls
    through both `switch` statements, leaving the buffer unchanged. -/
def setHSVcore (LEN pos sextant hf s v : Nat) (buf : List rgb_t) : List rgb_t :=
  let c := floorChannel s v
  if sextant &&& 1 = 0 then
    let d := slopeUp s v hf
    match sextant with
    | 0 => setRGBbytes LEN pos v ((d >>> 16) % 256) c buf
    | 2 => setRGBbytes LEN pos c v ((d >>> 16) % 256) buf
    | 4 => setRGBbytes LEN pos ((d >>> 16) % 256) c v buf
    | _ => buf
  else
    let d := slopeDown s v hf
    match sextant with
    | 1 => setRGBbytes LEN pos ((d >>> 16) % 256) v c buf
    | 3 => setRGBbytes LEN pos c ((d >>> 16) % 256) v buf
    | 5 => setRGBbytes LEN pos v c ((d >>> 16) % 256) buf
    | _ => buf

/-- `setHSV(pos, h, s, v)` (lines 92-151): the two degenerate shortcuts
    (`v == 0` → black, `s == 0` → gray), then the fixed-point sextant math. -/
def setHSV (LEN pos h s v : Nat) (buf : List rgb_t) : List rgb_t :=
  if v = 0 then setRGBbytes LEN pos 0 0 0 buf
  else if s = 0 then setRGBbytes LEN pos v v v buf
  else setHSVcore LEN pos (sextantOf h) (h &&& 0xff) s v buf

/-- The triplet produced by the sextant switch (same arithmetic as
    `setHSVcore`, without the buffer write). -/
def convertCore (sextant hf s v : Nat) : rgb_t :=
  let c := floorChannel s v
  if sextant &&& 1 = 0 then
    let d := slopeUp s v hf
    match sextant with
    | 0 => ⟨v, (d >>> 16) % 256, c⟩
    | 2 => ⟨c, v, (d >>> 16) % 256⟩
    | 4 => ⟨(d >>> 16) % 256, c, v⟩
    | _ => ⟨0, 0, 0⟩
  else
    let d := slopeDown s v hf
    match sextant with
    | 1 => ⟨(d >>> 16) % 256, v, c⟩
    | 3 => ⟨c, (d >>> 16) % 256, v⟩
    | 5 => ⟨v, c, (d >>> 16) % 256⟩
    | _ => ⟨0, 0, 0⟩

/-- The spec's `convert(h, s, v)`: the Color Triplet that `setHSV` computes
    and writes into the buffer (proved below: `setHSV_eq_setRGB_convert`). -/
def convert (h s v : Nat) : rgb_t :=
  if v = 0 then ⟨0, 0, 0⟩
  else if s = 0 then ⟨v, v, v⟩
  else convertCore (sextantOf h) (h &&& 0xff) s v

/-- A pulse on the data line: `long` high span encodes bit 1, `short` high
    span encodes bit 0 (§4.3 timing table). -/
inductive Pulse where
  | long
  | short
  deriving DecidableEq

/-- C logical negation `!x`: 1 on zero, 0 on anything nonzero. -/
def lnot (x : Nat) : Nat :=
  if x = 0 then 1 else 0

/-- The three successive PORTB values written by one `sendBit` call. -/
structure BitTrace where
  rise : Nat
  mid : Nat
  final : Nat
  deriving DecidableEq

/-- `sendBit(b)` (lines 183-189) as the three 8-bit register writes
    `PORTB |= _BV(PIN)`, `PORTB &= b ? 0x0FF : !_BV(PIN)`,
    `PORTB &= !_BV(PIN)`, starting from register value `port`. -/
def sendBit (pin : Nat) (b : Bool) (port : Nat) : BitTrace :=
  let rise := (port ||| (1 <<< pin)) % 256
  let mid := rise &&& (if b then 0xFF else lnot (1 <<< pin))
  ⟨rise, mid, mid &&& lnot (1 <<< pin)⟩

/-- Pulse shape of one bit: long iff the line is still high during the
    middle span (between the second and third register writes). -/
def pulseOf (pin : Nat) (t : BitTrace) : Pulse :=
  if t.mid.testBit pin then Pulse.long else Pulse.short

/-- The 8 bit tests `0x80 & x` … `0x01 & x` of `sendRGB`/`sendGRB`,
    MSB first, each converted to `bool` as C does (nonzero → true). -/
def bitsOfByte (x : Nat) : List Bool :=
  [x &&& 0x80 != 0, x &&& 0x40 != 0, x &&& 0x20 != 0, x &&& 0x10 != 0,
   x &&& 0x08 != 0, x &&& 0x04 != 0, x &&& 0x02 != 0, x &&& 0x01 != 0]

/-- Send a list of bits in order, threading the PORTB register value and
    collecting the pulse shapes. -/
def sendBits (pin : Nat) (bs : List Bool) (port : Nat) : List Pulse × Nat :=
  match bs with
  | [] => ([], port)
  | b :: rest =>
    let t := sendBit pin b port
    let (ps, port2) := sendBits pin rest t.final
    (pulseOf pin t :: ps, port2)

/-- One byte's 8-bit burst (one cli/sei bracket of `sendRGB`/`sendGRB`). -/
def sendByte (pin x port : Nat) : List Pulse × Nat :=
  sendBits pin (bitsOfByte x) port

/-- `sendRGB(rgb)` (lines 198-231): byte `r`, then `g`, then `b`. -/
def sendRGB (pin : Nat) (c : rgb_t) (port : Nat) : List Pulse × Nat :=
  let (p1, s1) := sendByte pin c.r port
  let (p2, s2) := sendByte pin c.g s1
  let (p3, s3) := sendByte pin c.b s2
  (p1 ++ (p2 ++ p3), s3)

/-- `sendGRB(rgb)` (lines 240-273): byte `g`, then `r`, then `b`. -/
def sendGRB (pin : Nat) (c : rgb_t) (port : Nat) : List Pulse × Nat :=
  let (p1, s1) := sendByte pin c.g port
  let (p2, s2) := sendByte pin c.r s1
  let (p3, s3) := sendByte pin c.b s2
  (p1 ++ (p2 ++ p3), s3)

/-- The per-pixel loop body of `flush` (lines 161-167). -/
def sendPixel (pin : Nat) (ord : order_t) (c : rgb_t) (port : Nat) :
    List Pulse × Nat :=
  match ord with
  | order_t.RGB => sendRGB pin c port
  | order_t.GRB => sendGRB pin c port

/-- The pixel loop of `flush`, threading PORTB through all pixels. -/
def sendFrame (pin : Nat) (ord : order_t) (data : List rgb_t) (port : Nat) :
    List Pulse × Nat :=
  match data with
  | [] => ([], port)
  | c :: rest =>
    let (ps, port2) := sendPixel pin ord c port
    let (ps2, port3) := sendFrame pin ord rest port2
    (ps ++ ps2, port3)

/-- `flush()` (lines 158-168): `PORTB = 0`, the reset interval, then every
    pixel in index order; result is the emitted pulse sequence. -/
def flush (pin : Nat) (ord : order_t) (data : List rgb_t) : List Pulse :=
  (sendFrame pin ord data 0).1

/-- The protocol's encoding of one bit as a pulse: 1 → long, 0 → short. -/
def pulseCode (b : Bool) : Pulse :=
  if b then Pulse.long else Pulse.short

/-- MSB-first pulse sequence of one byte. -/
def bytePulses (x : Nat) : List Pulse :=
  (bitsOfByte x).map pulseCode

/-- Per-pixel pulse sequence for each channel order. -/
def pixelPulses (ord : order_t) (c : rgb_t) : List Pulse :=
  match ord with
  | order_t.RGB => bytePulses c.r ++ (bytePulses c.g ++ bytePulses c.b)
  | order_t.GRB => bytePulses c.g ++ (bytePulses c.r ++ bytePulses c.b)

/-- An 8-bit mask is a plain byte mask: `n &&& 255 = n % 256`. -/
theorem and_255 (n : Nat) : n &&& 255 = n % 256 :=
  Nat.and_pow_two_sub_one_eq_mod n 8

/-- For a pin within PORTB, its bit value fits in the 8-bit register. -/
theorem two_pow_lt_256 (pin : Nat) (hp : pin < 8) : 2 ^ pin < 256 := by
  calc 2 ^ pin ≤ 2 ^ 7 := Nat.pow_le_pow_right (by norm_num) (by omega)
  _ < 256 := by norm_num

/-- `!_BV(PIN)` is the logical negation of a nonzero value, hence 0. -/
theorem lnot_two_pow (pin : Nat) : lnot (1 <<< pin) = 0 := by
  unfold lnot
  rw [Nat.one_shiftLeft, if_neg (by positivity)]

/-- Same fact stated on the rewritten form `2 ^ pin`. -/
theorem lnot_pow (pin : Nat) : lnot (2 ^ pin) = 0 := by
  unfold lnot
  rw [if_neg (by positivity)]

/-- Every `sendBit` call ends with the whole PORTB register cleared. -/
theorem sendBit_final_zero (pin : Nat) (b : Bool) (port : Nat) :
    (sendBit pin b port).final = 0 := by
  simp [sendBit, lnot_two_pow]

/-- `sendBit` from an all-low port: the line rises on the pin bit, stays high
    through the middle span iff the bit is 1, and ends all-low. -/
theorem sendBit_zero_eq (pin : Nat) (hp : pin < 8) (b : Bool) :
    sendBit pin b 0 = ⟨2 ^ pin, if b then 2 ^ pin else 0, 0⟩ := by
  have hlt : 2 ^ pin < 256 := two_pow_lt_256 pin hp
  cases b
  · simp [sendBit, Nat.one_shiftLeft, Nat.mod_eq_of_lt hlt, lnot_pow]
  · simp [sendBit, Nat.one_shiftLeft, Nat.mod_eq_of_lt hlt, lnot_pow, and_255]

/-- From an all-low port, the pulse of `sendBit b` is long iff `b` is 1. -/
theorem pulseOf_sendBit_zero (pin : Nat) (hp : pin < 8) (b : Bool) :
    pulseOf pin (sendBit pin b 0) = pulseCode b := by
  rw [sendBit_zero_eq pin hp]
  cases b
  · simp [pulseOf, pulseCode, Nat.zero_testBit]
  · simp [pulseOf, pulseCode, Nat.testBit_two_pow_self]

/-- A bit burst started from an all-low port encodes each bit as its pulse
    and leaves the port all-low. -/
theorem sendBits_zero (pin : Nat) (hp : pin < 8) (bs : List Bool) :
    sendBits pin bs 0 = (bs.map pulseCode, 0) := by
  induction bs with
  | nil => rfl
  | cons b rest ih =>
    simp only [sendBits, sendBit_final_zero, ih, pulseOf_sendBit_zero pin hp,
      List.map_cons]

/-- One byte burst from an all-low port yields its MSB-first pulses. -/
theorem sendByte_zero (pin : Nat) (hp : pin < 8) (x : Nat) :
    sendByte pin x 0 = (bytePulses x, 0) :=
  sendBits_zero pin hp (bitsOfByte x)

/-- `sendRGB` emits the r, g, b bytes in that order, MSB first. -/
theorem sendRGB_zero (pin : Nat) (hp : pin < 8) (c : rgb_t) :
    sendRGB pin c 0 = (bytePulses c.r ++ (bytePulses c.g ++ bytePulses c.b), 0) := by
  simp only [sendRGB, sendByte_zero pin hp]

/-- `sendGRB` emits the g, r, b bytes in that order, MSB first. -/
theorem sendGRB_zero (pin : Nat) (hp : pin < 8) (c : rgb_t) :
    sendGRB pin c 0 = (bytePulses c.g ++ (bytePulses c.r ++ bytePulses c.b), 0) := by
  simp only [sendGRB, sendByte_zero pin hp]

/-- One pixel's pulses under either channel order. -/
theorem sendPixel_zero (pin : Nat) (hp : pin < 8) (ord : order_t) (c : rgb_t) :
    sendPixel pin ord c 0 = (pixelPulses ord c, 0) := by
  cases ord
  · exact sendRGB_zero pin hp c
  · exact sendGRB_zero pin hp c

/-- The whole frame's pulses: pixels in index order, concatenated. -/
theorem sendFrame_zero (pin : Nat) (hp : pin < 8) (ord : order_t)
    (data : List rgb_t) :
    sendFrame pin ord data 0 = (data.flatMap (pixelPulses ord), 0) := by
  induction data with
  | nil => rfl
  | cons c rest ih =>
    simp only [sendFrame, sendPixel_zero pin hp ord c, ih, List.flatMap_cons]

/-- `flush` emits, pixel by pixel in index order, the pulses of the three
    channel bytes in the configured order, each byte MSB first. -/
theorem flush_pulses (pin : Nat) (hp : pin < 8) (ord : order_t)
    (data : List rgb_t) :
    flush pin ord data = data.flatMap (pixelPulses ord) := by
  unfold flush
  rw [sendFrame_zero pin hp ord data]

/-- The sextant value is always at most 5. -/
theorem sextantOf_le_five (h : Nat) : sextantOf h ≤ 5 := by
  unfold sextantOf
  rw [Nat.shiftRight_eq_div_pow]
  split <;> omega

/-- For a sextant in 0..5 the buffer update of the sextant switch is the
    bounds-checked write of the triplet computed by `convertCore`. -/
theorem setHSVcore_eq (LEN pos sx hf s v : Nat) (buf : List rgb_t)
    (hsx : sx ≤ 5) :
    setHSVcore LEN pos sx hf s v buf =
      setRGB LEN pos (convertCore sx hf s v) buf := by
  interval_cases sx <;> rfl

/-- `setHSV` is exactly the bounds-checked write of the converted triplet. -/
theorem setHSV_eq_setRGB_convert (LEN pos h s v : Nat) (buf : List rgb_t) :
    setHSV LEN pos h s v buf = setRGB LEN pos (convert h s v) buf := by
  unfold setHSV convert
  by_cases hv : v = 0
  · rw [if_pos hv, if_pos hv]; rfl
  · rw [if_neg hv, if_neg hv]
    by_cases hs : s = 0
    · rw [if_pos hs, if_pos hs]; rfl
    · rw [if_neg hs, if_neg hs]
      exact setHSVcore_eq LEN pos _ _ s v buf (sextantOf_le_five h)

/-- Claim C1: for a buffer of length 3 whose every slot holds (255,0,0),
    `flush` under RGB order emits, for each of the 3 pixels in index order,
    exactly the bytes 0xFF, 0x00, 0x00, each byte MSB first as long (bit 1)
    and short (bit 0) pulses. -/
theorem flush_red3_pulses (pin : Nat) (hp : pin < 8) :
    flush pin order_t.RGB (List.replicate 3 ⟨255, 0, 0⟩) =
      List.flatten (List.replicate 3
        (bytePulses 0xFF ++ (bytePulses 0x00 ++ bytePulses 0x00)))
    ∧ bytePulses 0xFF = List.replicate 8 Pulse.long
    ∧ bytePulses 0x00 = List.replicate 8 Pulse.short := by
  refine ⟨?_, by decide, by decide⟩
  rw [flush_pulses pin hp]
  decide

/-- Witness for C1 at the default pin 1. -/
theorem flush_red3_pulses_witness :
    (1 : Nat) < 8 ∧
    (flush 1 order_t.RGB (List.replicate 3 ⟨255, 0, 0⟩) =
      List.flatten (List.replicate 3
        (bytePulses 0xFF ++ (bytePulses 0x00 ++ bytePulses 0x00)))
    ∧ bytePulses 0xFF = List.replicate 8 Pulse.long
    ∧ bytePulses 0x00 = List.replicate 8 Pulse.short) :=
  ⟨by decide, flush_red3_pulses 1 (by decide)⟩

/-- Claim C2: for every buffer, GRB transmission differs from RGB
    transmission only by swapping the red and green byte positions within
    each pixel's three-byte group; the blue byte is third in both, and each
    byte is encoded by the same MSB-first pulse map `bytePulses`. -/
theorem grb_swaps_red_green (pin : Nat) (hp : pin < 8) (data : List rgb_t) :
    flush pin order_t.GRB data =
      data.flatMap (fun c => bytePulses c.g ++ (bytePulses c.r ++ bytePulses c.b))
    ∧ flush pin order_t.RGB data =
      data.flatMap (fun c => bytePulses c.r ++ (bytePulses c.g ++ bytePulses c.b)) :=
  ⟨flush_pulses pin hp order_t.GRB data, flush_pulses pin hp order_t.RGB data⟩

/-- Witness for C2 at pin 1 and a one-pixel buffer. -/
theorem grb_swaps_red_green_witness :
    (1 : Nat) < 8 ∧
    (flush 1 order_t.GRB [⟨1, 2, 3⟩] =
      ([⟨1, 2, 3⟩] : List rgb_t).flatMap
        (fun c => bytePulses c.g ++ (bytePulses c.r ++ bytePulses c.b))
    ∧ flush 1 order_t.RGB [⟨1, 2, 3⟩] =
      ([⟨1, 2, 3⟩] : List rgb_t).flatMap
        (fun c => bytePulses c.r ++ (bytePulses c.g ++ bytePulses c.b))) :=
  ⟨by decide, grb_swaps_red_green 1 (by decide) [⟨1, 2, 3⟩]⟩

/-- Claim C3: for every in-range position and every byte triplet, writing
    with `setRGB(pos, r, g, b)` and then reading slot `pos` returns exactly
    the triplet (r, g, b). -/
theorem set_then_read (LEN pos r g b : Nat) (buf : List rgb_t)
    (hlen : buf.length = LEN) (hpos : pos < LEN) :
    (setRGBbytes LEN pos r g b buf)[pos]? = some ⟨r, g, b⟩ := by
  unfold setRGBbytes setRGB
  rw [if_pos hpos, List.getElem?_set_self]
  omega

/-- Witness for C3 on a two-slot buffer. -/
theorem set_then_read_witness :
    (([⟨0, 0, 0⟩, ⟨0, 0, 0⟩] : List rgb_t).length = 2 ∧ (0 : Nat) < 2) ∧
    (setRGBbytes 2 0 9 8 7 [⟨0, 0, 0⟩, ⟨0, 0, 0⟩])[0]? = some ⟨9, 8, 7⟩ :=
  ⟨⟨by decide, by decide⟩,
    set_then_read 2 0 9 8 7 [⟨0, 0, 0⟩, ⟨0, 0, 0⟩] (by decide) (by decide)⟩

/-- Claim C4: for every position at or beyond the buffer length, both `setRGB`
    overloads are silent no-ops: the buffer is returned unchanged. -/
theorem set_out_of_range_noop (LEN pos r g b : Nat) (rgb : rgb_t)
    (buf : List rgb_t) (hpos : LEN ≤ pos) :
    setRGB LEN pos rgb buf = buf ∧ setRGBbytes LEN pos r g b buf = buf := by
  unfold setRGBbytes setRGB
  constructor <;> rw [if_neg (by omega)]

/-- Witness for C4 at position 5 of a length-2 buffer. -/
theorem set_out_of_range_noop_witness :
    (2 : Nat) ≤ 5 ∧
    (setRGB 2 5 ⟨9, 9, 9⟩ [⟨1, 1, 1⟩, ⟨2, 2, 2⟩] = [⟨1, 1, 1⟩, ⟨2, 2, 2⟩] ∧
     setRGBbytes 2 5 9 9 9 [⟨1, 1, 1⟩, ⟨2, 2, 2⟩] = [⟨1, 1, 1⟩, ⟨2, 2, 2⟩]) :=
  ⟨by decide, set_out_of_range_noop 2 5 9 9 9 ⟨9, 9, 9⟩ [⟨1, 1, 1⟩, ⟨2, 2, 2⟩] (by decide)⟩

/-- Claim C5: the HSV conversion is periodic in hue with period 1536 (for
    hues whose increment by 1536 does not wrap the 16-bit unsigned type). -/
theorem convert_periodic (h s v : Nat) (_hno : h + 1536 < 65536) :
    convert (h + 1536) s v = convert h s v := by
  have h1 : sextantOf (h + 1536) = sextantOf h := by
    unfold sextantOf
    have e : (h + 1536) % (6 * 256) = h % (6 * 256) := by omega
    rw [e]
  have a : (h + 1536) &&& 0xff = (h + 1536) % 256 := and_255 (h + 1536)
  have b : h &&& 0xff = h % 256 := and_255 h
  have h2 : (h + 1536) &&& 0xff = h &&& 0xff := by
    rw [a, b]
    omega
  unfold convert
  rw [h1, h2]

/-- Witness for C5 at hue 0. -/
theorem convert_periodic_witness :
    (0 : Nat) + 1536 < 65536 ∧ convert (0 + 1536) 100 200 = convert 0 100 200 :=
  ⟨by decide, convert_periodic 0 100 200 (by decide)⟩

/-- Claim C6: `convert(0, 255, 255)` is within one unit per channel of pure
    red (255, 0, 0). -/
theorem convert_pure_red :
    Nat.dist (convert 0 255 255).r 255 ≤ 1 ∧
    (convert 0 255 255).g ≤ 1 ∧ (convert 0 255 255).b ≤ 1 := by
  decide

/-- Claim C7 counterexample: `convert(256, 255, 255)` is not within one unit
    per channel of (0, 255, 0): its red channel equals 255, full on.  Hue 256
    is the red/yellow sextant boundary; green sits at hue 512. -/
theorem convert_boundary_not_green :
    ¬((convert 256 255 255).r ≤ 1 ∧ 254 ≤ (convert 256 255 255).g ∧
      (convert 256 255 255).b ≤ 1) := by
  decide

/-- Claim C7 (amended): `convert(256, 255, 255)` yields (255, 255, 0), the
    yellow at the sextant 0/1 boundary, and the results at h = 255 and
    h = 256 (s = v = 255) differ by at most 1 LSB in every channel. -/
theorem convert_boundary_yellow_continuous :
    convert 256 255 255 = ⟨255, 255, 0⟩ ∧
    Nat.dist (convert 255 255 255).r (convert 256 255 255).r ≤ 1 ∧
    Nat.dist (convert 255 255 255).g (convert 256 255 255).g ≤ 1 ∧
    Nat.dist (convert 255 255 255).b (convert 256 255 255).b ≤ 1 := by
  decide

/-- Claim C8: one `setHSV` call is exactly the bounds-checked `setRGB` write
    of the converted triplet, so it changes at most slot `pos` and changes
    nothing when `pos` is out of range. -/
theorem setHSV_frame_effect (LEN pos h s v : Nat) (buf : List rgb_t) :
    setHSV LEN pos h s v buf = setRGB LEN pos (convert h s v) buf ∧
    (∀ j, j ≠ pos → (setHSV LEN pos h s v buf)[j]? = buf[j]?) ∧
    (LEN ≤ pos → setHSV LEN pos h s v buf = buf) := by
  refine ⟨setHSV_eq_setRGB_convert LEN pos h s v buf, ?_, ?_⟩
  · intro j hj
    rw [setHSV_eq_setRGB_convert LEN pos h s v buf]
    unfold setRGB
    split
    · exact List.getElem?_set_ne (Ne.symm hj)
    · rfl
  · intro hle
    rw [setHSV_eq_setRGB_convert LEN pos h s v buf]
    unfold setRGB
    rw [if_neg (by omega)]

/-- Witness for C8: writing slot 0 of a two-slot buffer leaves slot 1 as it
    was. -/
theorem setHSV_frame_effect_witness :
    (1 : Nat) ≠ 0 ∧
    (setHSV 2 0 300 200 150 [⟨1, 1, 1⟩, ⟨2, 2, 2⟩])[1]? =
      ([⟨1, 1, 1⟩, ⟨2, 2, 2⟩] : List rgb_t)[1]? :=
  ⟨by decide,
    (setHSV_frame_effect 2 0 300 200 150 [⟨1, 1, 1⟩, ⟨2, 2, 2⟩]).2.1 1 (by decide)⟩

/-- Claim C9: the mask `!_BV(PIN)` is the logical negation of a nonzero
    value, hence 0, so after every `sendBit(b)` the entire PORTB register is
    0: the final write clears every line of the port, whatever `b` and the
    incoming port state were. -/
theorem sendBit_zeroes_port (pin : Nat) (b : Bool) (port : Nat) :
    lnot (1 <<< pin) = 0 ∧ (sendBit pin b port).final = 0 :=
  ⟨lnot_two_pow pin, sendBit_final_zero pin b port⟩

/-- Claim C10: the defensive clamp of the sextant to 5 is unreachable: for
    every hue, `(h mod 1536) >> 8` is at most 5, so the sextant always
    equals `(h mod 1536) / 256`, which lies in 0..5. -/
theorem sextant_clamp_unreachable (h : Nat) :
    (h % (6 * 256)) >>> 8 ≤ 5 ∧
    sextantOf h = h % 1536 / 256 ∧ h % 1536 / 256 ≤ 5 := by
  have hb : (h % (6 * 256)) >>> 8 = h % 1536 / 256 := by
    rw [Nat.shiftRight_eq_div_pow]
  have h5 : h % 1536 / 256 ≤ 5 := by omega
  refine ⟨by rw [hb]; exact h5, ?_, h5⟩
  unfold sextantOf
  rw [hb, if_neg (by omega)]

end WS2812b
